import Mathlib

/-!
Verification of the `integrations-core` checks against their specification.

The development shallowly embeds the Python sources:
* `sqlserver/datadog_checks/sqlserver/agent_activity.py` — the SQL Server
  agent-activity collector (history query, watermark, grouping, events);
* `kubevirt_api/datadog_checks/kubevirt_api/check.py` and
  `kubevirt_handler/datadog_checks/kubevirt_handler/check.py` — the custom
  OpenMetrics transformer and the metrics-endpoint validator.

Machine integers are modelled as `Int`, Python `None`-able integers as
`Option Int`, Python floats as `ℚ`, and raising code as `Except String`.
Python truthiness of an integer (`if x:`) is modelled explicitly: `None`
and `0` are falsy.
-/

namespace IntegrationsCore

/-! ### Data model: `msdb.dbo.sysjobhistory` rows and query output rows -/

/-- A row of the `msdb.dbo.sysjobhistory` table, the input of
`AGENT_HISTORY_QUERY`. -/
structure SysJobHistoryRow where
  job_id : Int
  step_id : Int
  step_name : String
  instance_id : Int
  run_date : Int
  run_time : Int
  run_duration : Int
  run_status : Int
  message : String
deriving DecidableEq, Repr

/-- A row produced by `AGENT_HISTORY_QUERY` (the dict built by
`_get_new_agent_job_history` from the cursor columns).
`completion_instance_id` is `Option Int` because it comes from an SQL
aggregate subquery, which is `NULL` on an empty set. -/
structure HistoryRow where
  job_id : Int
  step_id : Int
  step_name : String
  step_instance_id : Int
  completion_instance_id : Option Int
  run_date : Int
  run_time : Int
  run_duration : Int
  run_status : Int
  message : String
deriving DecidableEq, Repr

/-! ### Semantics of `AGENT_HISTORY_QUERY`

The SQL subquery
`SELECT MIN(sjh2.instance_id) FROM msdb.dbo.sysjobhistory sjh2
 WHERE sjh2.job_id = sjh1.job_id AND sjh2.step_id = 0
 AND sjh2.instance_id >= sjh1.instance_id`
is embedded as the minimum of `step0Instances`; the `EXISTS` clause (with
its optional `HAVING MIN(sjh2.instance_id) > {w}` filter appended by
`_get_new_agent_job_history`) decides membership in the result set. -/

/-- The `instance_id`s of step-0 rows of job `jobId` at or after `inst`:
the candidate set of the correlated subquery of `AGENT_HISTORY_QUERY`. -/
def step0Instances (tbl : List SysJobHistoryRow) (jobId inst : Int) : List Int :=
  (tbl.filter fun s => decide (s.job_id = jobId ∧ s.step_id = 0 ∧ inst ≤ s.instance_id)).map
    SysJobHistoryRow.instance_id

/-- `MIN(sjh2.instance_id)` of the correlated subquery: `none` models SQL
`NULL` on an empty candidate set. -/
def computeCompletionId (tbl : List SysJobHistoryRow) (r : SysJobHistoryRow) : Option Int :=
  (step0Instances tbl r.job_id r.instance_id).min?

/-- The optional `HAVING MIN(sjh2.instance_id) > t` condition of the
query's `EXISTS` clause, applied to the subquery minimum `m`. -/
def passesFilter (filt : Option Int) (m : Int) : Bool :=
  match filt with
  | none => true
  | some t => decide (t < m)

/-- The `last_instance_id_filter` built by `_get_new_agent_job_history`:
Python `if self._last_history_id:` is integer truthiness, so no filter is
added when the watermark is unset (`None`) or zero. -/
def lastInstanceIdFilterOf (wm : Option Int) : Option Int :=
  match wm with
  | none => none
  | some w => if w = 0 then none else some w

/-- Result set of `AGENT_HISTORY_QUERY` over table `tbl` with an optional
`HAVING MIN(sjh2.instance_id) > t` filter: a row is returned iff its
correlated subquery has a non-empty candidate set whose minimum passes the
filter, and `completion_instance_id` is that minimum. -/
def runAgentHistoryQuery (tbl : List SysJobHistoryRow) (filt : Option Int) :
    List HistoryRow :=
  tbl.filterMap fun r =>
    match computeCompletionId tbl r with
    | none => none
    | some m =>
      if passesFilter filt m then
        some { job_id := r.job_id
               step_id := r.step_id
               step_name := r.step_name
               step_instance_id := r.instance_id
               completion_instance_id := some m
               run_date := r.run_date
               run_time := r.run_time
               run_duration := r.run_duration
               run_status := r.run_status
               message := r.message }
      else none

/-! ### The watermark update loop of `_get_new_agent_job_history`

```python
for row in rows:
    if self._last_history_id is None or (
        row['completion_instance_id'] > self._last_history_id
    ):
        self._last_history_id = row['completion_instance_id']
```

When `_last_history_id` is an int and the row's `completion_instance_id`
is `None`, Python raises `TypeError` on the comparison; this is the
`.error` branch. -/

/-- One iteration of the watermark update loop. -/
def updateWatermarkRow (last : Option Int) (cid : Option Int) :
    Except String (Option Int) :=
  match last with
  | none => .ok cid
  | some l =>
    match cid with
    | none => .error "TypeError: > not supported between NoneType and int"
    | some c => .ok (if l < c then some c else some l)

/-- The watermark update loop over the fetched rows' completion ids. -/
def updateWatermarkE (last : Option Int) : List (Option Int) → Except String (Option Int)
  | [] => .ok last
  | c :: cs =>
    match updateWatermarkRow last c with
    | .error e => .error e
    | .ok l' => updateWatermarkE l' cs

/-- The fetch-then-update body of `_get_new_agent_job_history`, factored
over an already-fetched row list: runs the watermark loop and returns the
rows unchanged. -/
def processFetchedRows (last : Option Int) (rows : List HistoryRow) :
    Except String (List HistoryRow × Option Int) :=
  match updateWatermarkE last (rows.map HistoryRow.completion_instance_id) with
  | .error e => .error e
  | .ok w' => .ok (rows, w')

/-! ### Collector construction (`SqlserverAgentActivity.__init__`) -/

/-- `DEFAULT_COLLECTION_INTERVAL = 10` from `agent_activity.py`. -/
def DEFAULT_COLLECTION_INTERVAL : ℚ := 10

/-- The effective collection interval computed in `__init__`:
the configured value (`activity_config.get('collection_interval', 10)`),
replaced by the default when it is `<= 0`. -/
def effectiveCollectionInterval (cfg : Option ℚ) : ℚ :=
  let ci := cfg.getD DEFAULT_COLLECTION_INTERVAL
  if ci ≤ 0 then DEFAULT_COLLECTION_INTERVAL else ci

/-- `rate_limit=1 / float(collection_interval)` passed to `DBMAsyncJob`. -/
def rateLimitOf (cfg : Option ℚ) : ℚ :=
  1 / effectiveCollectionInterval cfg

/-- The mutable state of a `SqlserverAgentActivity` instance, together with
the check fields its event construction reads (`resolved_hostname`,
`datadog_agent.get_version()`, `static_info_cache`, `cloud_metadata`). -/
structure CollectorState where
  tags : List String
  collection_interval : ℚ
  last_history_id : Option Int
  resolved_hostname : String
  ddagentversion : String
  sqlserver_version : String
  sqlserver_engine_edition : String
  cloud_metadata : String
deriving DecidableEq, Repr

/-- Python `s.startswith(pre)` on the character sequences of `s` and
`pre`. -/
def pyStartsWith (s pre : String) : Bool :=
  pre.toList.isPrefixOf s.toList

/-- `SqlserverAgentActivity.__init__`: filters `dd.internal` tags out of the
check's tags, resolves the collection interval, and starts with an unset
watermark. -/
def initCollector (checkTags : List String) (cfgInterval : Option ℚ)
    (hostname agentVersion ver edition cloudMeta : String) : CollectorState :=
  { tags := checkTags.filter fun t => !(pyStartsWith t "dd.internal")
    collection_interval := effectiveCollectionInterval cfgInterval
    last_history_id := none
    resolved_hostname := hostname
    ddagentversion := agentVersion
    sqlserver_version := ver
    sqlserver_engine_edition := edition
    cloud_metadata := cloudMeta }

/-- `_get_new_agent_job_history`: builds the filter from the current
watermark, runs the query, then runs the watermark update loop over the
fetched rows and returns them unchanged. -/
def getNewAgentJobHistory (st : CollectorState) (tbl : List SysJobHistoryRow) :
    Except String (List HistoryRow × CollectorState) :=
  let rows := runAgentHistoryQuery tbl (lastInstanceIdFilterOf st.last_history_id)
  match updateWatermarkE st.last_history_id (rows.map HistoryRow.completion_instance_id) with
  | .error e => .error e
  | .ok w' => .ok (rows, { st with last_history_id := w' })

/-! ### Grouping by `completion_instance_id` (`collect_agent_activity`)

The Python loop fills an insertion-ordered `dict`; it is embedded as an
association list: a new key is appended at the end, a row with an existing
key is appended to that key's list. -/

/-- Association-list lookup on the grouping dict, first match wins
(as in a Python dict, where keys are unique). -/
def lookupKey (k : Option Int) :
    List (Option Int × List HistoryRow) → Option (List HistoryRow)
  | [] => none
  | p :: ps => if p.1 = k then some p.2 else lookupKey k ps

/-- One iteration of the grouping loop:
`history_rows_grouped_by_instance[cid]` gets the row appended, a missing
key is inserted at the end with a singleton list. -/
def addRow (acc : List (Option Int × List HistoryRow)) (r : HistoryRow) :
    List (Option Int × List HistoryRow) :=
  if (lookupKey r.completion_instance_id acc).isSome then
    acc.map fun p =>
      if p.1 = r.completion_instance_id then (p.1, p.2 ++ [r]) else p
  else
    acc ++ [(r.completion_instance_id, [r])]

/-- The grouping loop over the fetched rows, left to right. -/
def groupAux : List HistoryRow → List (Option Int × List HistoryRow) →
    List (Option Int × List HistoryRow)
  | [], acc => acc
  | r :: rs, acc => groupAux rs (addRow acc r)

/-- `history_rows_grouped_by_instance` built by `collect_agent_activity`. -/
def groupByCid (rows : List HistoryRow) : List (Option Int × List HistoryRow) :=
  groupAux rows []

/-! ### Events and their JSON serialization -/

/-- The event dict built by `_create_agent_jobs_history_event`. -/
structure AgentJobsHistoryEvent where
  host : String
  ddagentversion : String
  ddsource : String
  dbm_type : String
  collection_interval : ℚ
  ddtags : List String
  timestamp : ℚ
  sqlserver_version : String
  sqlserver_engine_edition : String
  cloud_metadata : String
  sqlserver_job_history : List HistoryRow
deriving DecidableEq, Repr

/-- `_create_agent_jobs_history_event(grouped_jobs_history_rows)`:
`now` is `time.time()` in seconds, the event timestamp is `now * 1000`. -/
def mkAgentJobsHistoryEvent (st : CollectorState) (now : ℚ)
    (group : List HistoryRow) : AgentJobsHistoryEvent :=
  { host := st.resolved_hostname
    ddagentversion := st.ddagentversion
    ddsource := "sqlserver"
    dbm_type := "activity"
    collection_interval := st.collection_interval
    ddtags := st.tags
    timestamp := now * 1000
    sqlserver_version := st.sqlserver_version
    sqlserver_engine_edition := st.sqlserver_engine_edition
    cloud_metadata := st.cloud_metadata
    sqlserver_job_history := group }

/-- A JSON value, the target of `json.dumps` on the event dict. -/
inductive Json where
  | str : String → Json
  | num : ℚ → Json
  | jnull : Json
  | arr : List Json → Json
  | obj : List (String × Json) → Json

/-- Field lookup in a serialized JSON object. -/
def Json.field (j : Json) (k : String) : Option Json :=
  match j with
  | .obj kvs => kvs.lookup k
  | _ => none

/-- JSON serialization of an `Option Int` column (`NULL` or a number). -/
def optIntToJson : Option Int → Json
  | none => .jnull
  | some v => .num v

/-- JSON serialization of a history row dict. -/
def historyRowToJson (r : HistoryRow) : Json :=
  .obj [("job_id", .num r.job_id),
        ("step_id", .num r.step_id),
        ("step_name", .str r.step_name),
        ("step_instance_id", .num r.step_instance_id),
        ("completion_instance_id", optIntToJson r.completion_instance_id),
        ("run_date", .num r.run_date),
        ("run_time", .num r.run_time),
        ("run_duration", .num r.run_duration),
        ("run_status", .num r.run_status),
        ("message", .str r.message)]

/-- `json.dumps(event, default=default_json_event_encoding)` on the event
dict, field order as written in `_create_agent_jobs_history_event`. -/
def eventToJson (e : AgentJobsHistoryEvent) : Json :=
  .obj [("host", .str e.host),
        ("ddagentversion", .str e.ddagentversion),
        ("ddsource", .str e.ddsource),
        ("dbm_type", .str e.dbm_type),
        ("collection_interval", .num e.collection_interval),
        ("ddtags", .arr (e.ddtags.map Json.str)),
        ("timestamp", .num e.timestamp),
        ("sqlserver_version", .str e.sqlserver_version),
        ("sqlserver_engine_edition", .str e.sqlserver_engine_edition),
        ("cloud_metadata", .str e.cloud_metadata),
        ("sqlserver_job_history", .arr (e.sqlserver_job_history.map historyRowToJson))]

/-- `collect_agent_activity`: fetch new history rows (updating the
watermark), group them by `completion_instance_id`, and for each group
create one event, serialize it, and hand the payload to
`database_monitoring_query_activity`. Returns the payloads sent, in order,
and the new state. -/
def collectAgentActivity (st : CollectorState) (now : ℚ)
    (tbl : List SysJobHistoryRow) :
    Except String (List Json × CollectorState) :=
  match getNewAgentJobHistory st tbl with
  | .error e => .error e
  | .ok (rows, st') =>
    let groups := groupByCid rows
    .ok (groups.map fun g => eventToJson (mkAgentJobsHistoryEvent st' now g.2), st')

/-! ### KubeVirt checks: the custom OpenMetrics transformer

`KubeVirtApiCheck.configure_transformer_kubevirt_metrics` and
`KubevirtHandlerCheck.configure_transformer_kubevirt_metrics` are the same
function up to which base-tag list is appended; the embedding takes the
metrics map and the base tags as parameters. `METRICS_MAP` itself lives in
`metrics.py`, which maps scraped names to either a plain string or a dict
carrying a `"name"` key. -/

/-- The scraped metric's type as exposed by the OpenMetrics parser. -/
inductive MetricType where
  | counter : MetricType
  | gauge : MetricType
  | other : String → MetricType
deriving DecidableEq, Repr

/-- The `_metric` argument of the transformer: its `name` and `type`. -/
structure ScrapedMetric where
  name : String
  type : MetricType
deriving DecidableEq, Repr

/-- One `(sample, tags, hostname)` triple of `sample_data`. -/
structure SampleEntry where
  value : ℚ
  tags : List String
  hostname : String
deriving DecidableEq, Repr

/-- A value of `METRICS_MAP`: a plain name, or a dict with a `"name"` key. -/
inductive MapEntry where
  | plain : String → MapEntry
  | withName : String → MapEntry
deriving DecidableEq, Repr

/-- The mapped metric name after the
`isinstance(new_metric_name, dict) and "name" in new_metric_name` step. -/
def MapEntry.resolvedName : MapEntry → String
  | .plain s => s
  | .withName s => s

/-- A metric submission made by the transformer. -/
inductive Emission where
  | count : String → ℚ → List String → String → Emission
  | gauge : String → ℚ → List String → String → Emission
  | native : String → List SampleEntry → Emission
deriving DecidableEq, Repr

/-- The body of `configure_transformer_kubevirt_metrics`'s `transform`:
per sample, drop the metric if its name is not in the map; otherwise append
the base tags and submit under the mapped name — counters via
`self.count(new_metric_name + ".count", ...)`, gauges via
`self.gauge(new_metric_name, ...)`, anything else through the native
dynamic transformer over the whole sample list with base tags added. -/
def transformKubevirtMetrics (metricsMap : List (String × MapEntry))
    (baseTags : List String) (m : ScrapedMetric)
    (sampleData : List SampleEntry) : List Emission :=
  sampleData.flatMap fun sd =>
    match metricsMap.lookup m.name with
    | none => []
    | some entry =>
      let tags := sd.tags ++ baseTags
      let newName := entry.resolvedName
      match m.type with
      | .counter => [.count (newName ++ ".count") sd.value tags sd.hostname]
      | .gauge => [.gauge newName sd.value tags sd.hostname]
      | .other _ =>
        [.native newName
          (sampleData.map fun x => { x with tags := x.tags ++ baseTags })]

/-! ### `KubeVirtApiCheck._validate_metrics_endpoint`

The function receives the result of `urlparse(url)`: `parsed_url.hostname`
(`None` when empty or absent) and `parsed_url.port` (`None` when absent;
`0` is a representable port). `if host and port:` is Python truthiness.
`ipaddress.ip_address` is modelled as a parse-function parameter so the
control flow is settled for any literal-IP parser; `parseIPv4` below is a
concrete instance for dotted-quad addresses. -/

/-- Python truthiness of `parsed_url.hostname` (`urlparse` never yields an
empty hostname, but the model keeps truthiness explicit). -/
def hostTruthy : Option String → Bool
  | none => false
  | some s => !(s = "")

/-- Python truthiness of `parsed_url.port`: `None` and `0` are falsy. -/
def portTruthy : Option Nat → Bool
  | none => false
  | some p => !(p = 0)

/-- `_validate_metrics_endpoint`: with truthy host and port, parse the host
as an IP literal and return the pair; in every other case raise
`ValueError`. -/
def validateMetricsEndpoint {α : Type} (ipParse : String → Option α)
    (host : Option String) (port : Option Nat) : Except String (α × Nat) :=
  if hostTruthy host && portTruthy port then
    match ipParse (host.getD "") with
    | some ip => .ok (ip, port.getD 0)
    | none => .error "ValueError: host must be a valid ip address"
  else
    .error "ValueError: URL does not match the expected format"

/-- A parsed dotted-quad IPv4 address. -/
structure IPv4Addr where
  o1 : Nat
  o2 : Nat
  o3 : Nat
  o4 : Nat
deriving DecidableEq, Repr

/-- Splitting a character list on a separator, keeping empty pieces
(the semantics of Python `str.split('.')`). -/
def splitOn (sep : Char) : List Char → List (List Char)
  | [] => [[]]
  | c :: rest =>
    match splitOn sep rest with
    | [] => [[]]
    | g :: gs => if c = sep then [] :: g :: gs else (c :: g) :: gs

/-- One decimal octet as accepted by `ipaddress.ip_address`: 1–3 digits,
no leading zero except `"0"` itself, value at most 255. -/
def parseOctet (cs : List Char) : Option Nat :=
  if cs ≠ [] ∧ cs.length ≤ 3 ∧ (∀ c ∈ cs, c.isDigit) ∧
      (cs.length > 1 → cs.head? ≠ some '0') then
    let v := cs.foldl (fun acc c => acc * 10 + (c.toNat - '0'.toNat)) 0
    if v ≤ 255 then some v else none
  else none

/-- Dotted-quad IPv4 parsing: exactly four octets separated by `.`. -/
def parseIPv4 (s : String) : Option IPv4Addr :=
  match (splitOn '.' s.toList).map parseOctet with
  | [some a, some b, some c, some d] => some ⟨a, b, c, d⟩
  | _ => none

/-! ### Concrete instances used to exercise the definitions -/

/-- A fetched history row whose `completion_instance_id` is SQL `NULL`. -/
def nullCidRow : HistoryRow :=
  { job_id := 1, step_id := 1, step_name := "step one", step_instance_id := 2
    completion_instance_id := none, run_date := 20240101, run_time := 120000
    run_duration := 3, run_status := 1, message := "ok" }

/-- A fetched history row with a present `completion_instance_id`. -/
def sampleHistoryRow : HistoryRow :=
  { job_id := 1, step_id := 0, step_name := "(Job outcome)", step_instance_id := 7
    completion_instance_id := some 7, run_date := 20240101, run_time := 120500
    run_duration := 5, run_status := 1, message := "done" }

/-- A second fetched history row, same completion id as `sampleHistoryRow`. -/
def sampleHistoryRow2 : HistoryRow :=
  { job_id := 1, step_id := 1, step_name := "step one", step_instance_id := 6
    completion_instance_id := some 7, run_date := 20240101, run_time := 120400
    run_duration := 4, run_status := 1, message := "ok" }

/-- A `sysjobhistory` step-0 row with `instance_id = 0`. -/
def zeroInstanceRow : SysJobHistoryRow :=
  { job_id := 1, step_id := 0, step_name := "(Job outcome)", instance_id := 0
    run_date := 20240101, run_time := 120000, run_duration := 1
    run_status := 1, message := "ok" }

/-- A small `sysjobhistory` table: one job with a step-1 row and its
step-0 completion row. -/
def exampleTable : List SysJobHistoryRow :=
  [{ job_id := 1, step_id := 1, step_name := "step one", instance_id := 5
     run_date := 20240101, run_time := 120000, run_duration := 2
     run_status := 1, message := "ok" },
   { job_id := 1, step_id := 0, step_name := "(Job outcome)", instance_id := 6
     run_date := 20240101, run_time := 120100, run_duration := 3
     run_status := 1, message := "done" }]

/-- A collector as built by `__init__` from a check with one internal tag. -/
def exampleState : CollectorState :=
  initCollector ["env:test", "dd.internal.resource:x"] none
    "db-host" "7.55.0" "16.0.1000" "3" "aws"

/-- The first output row of `AGENT_HISTORY_QUERY` over `exampleTable`
with no watermark filter. -/
def exampleQueryRow : HistoryRow :=
  { job_id := 1, step_id := 1, step_name := "step one", step_instance_id := 5
    completion_instance_id := some 6, run_date := 20240101, run_time := 120000
    run_duration := 2, run_status := 1, message := "ok" }

/-- A `sysjobhistory` table whose only completion has `instance_id = 10`. -/
def exampleTable2 : List SysJobHistoryRow :=
  [{ job_id := 1, step_id := 0, step_name := "(Job outcome)", instance_id := 10
     run_date := 20240102, run_time := 90000, run_duration := 1
     run_status := 1, message := "done" }]

/-- The output row of the history query over `exampleTable2`. -/
def exampleQueryRow2 : HistoryRow :=
  { job_id := 1, step_id := 0, step_name := "(Job outcome)", step_instance_id := 10
    completion_instance_id := some 10, run_date := 20240102, run_time := 90000
    run_duration := 1, run_status := 1, message := "done" }

/-- A tiny `METRICS_MAP`: one plain entry and one dict entry with `"name"`. -/
def exampleMetricsMap : List (String × MapEntry) :=
  [("kubevirt_api_request_deprecated_total", .plain "api_request_deprecated"),
   ("kubevirt_portforward_active_tunnels", .withName "portforward_active_tunnels")]

/-- Two scraped samples of one metric. -/
def exampleSamples : List SampleEntry :=
  [{ value := 3, tags := ["verb:GET"], hostname := "node-a" },
   { value := 4, tags := ["verb:PUT"], hostname := "node-b" }]

/-! ## Lemmas about the watermark update loop -/

theorem updateWatermarkE_some_map (w : Int) (cids : List Int) :
    updateWatermarkE (some w) (cids.map some) = .ok (some (cids.foldl max w)) := by
  induction cids generalizing w with
  | nil => rfl
  | cons c cs ih =>
    by_cases h : w < c
    · simp only [List.map_cons, updateWatermarkE, updateWatermarkRow, if_pos h,
        List.foldl_cons, max_eq_right h.le]
      exact ih c
    · simp only [List.map_cons, updateWatermarkE, updateWatermarkRow, if_neg h,
        List.foldl_cons, max_eq_left (not_lt.mp h)]
      exact ih w

theorem le_foldl_max (w : Int) (cids : List Int) : w ≤ cids.foldl max w := by
  induction cids generalizing w with
  | nil => exact le_refl w
  | cons c cs ih =>
    rw [List.foldl_cons]
    exact le_trans (le_max_left w c) (ih (max w c))

theorem updateWatermarkE_all_some (cids : List (Option Int)) :
    ∀ (last : Option Int), (∀ c ∈ cids, c.isSome) →
      ∃ w', updateWatermarkE last cids = .ok w' := by
  induction cids with
  | nil => exact fun last _ => ⟨last, rfl⟩
  | cons c cs ih =>
    intro last h
    obtain ⟨c', hc'⟩ := Option.isSome_iff_exists.mp (h c (List.mem_cons_self c cs))
    cases last with
    | none =>
      rw [hc']
      simpa only [updateWatermarkE, updateWatermarkRow] using
        ih (some c') fun x hx => h x (List.mem_cons_of_mem c hx)
    | some l =>
      rw [hc']
      simp only [updateWatermarkE, updateWatermarkRow]
      exact ih _ fun x hx => h x (List.mem_cons_of_mem c hx)

/-! ## Claims -/

/-- **C1.** The watermark `last_history_id` only moves forward: starting
from any watermark value `w`, after the update loop of
`_get_new_agent_job_history` processes any list of completion ids the
watermark equals the maximum of `w` and all ids seen (`foldl max`), which
is at least `w`, so it never decreases across runs; starting unset, it
becomes the maximum of the ids seen. -/
theorem watermark_forward_max (w : Int) (cids : List Int) :
    updateWatermarkE (some w) (cids.map some) = .ok (some (cids.foldl max w)) ∧
    w ≤ cids.foldl max w ∧
    (∀ (c : Int) (cs : List Int),
      updateWatermarkE none ((c :: cs).map some) = .ok (some (cs.foldl max c))) := by
  refine ⟨updateWatermarkE_some_map w cids, le_foldl_max w cids, fun c cs => ?_⟩
  simpa only [List.map_cons, updateWatermarkE, updateWatermarkRow] using
    updateWatermarkE_some_map c cs

/-- **C6.** The effective collection interval is the configured value when
positive and the default `10` when absent or non-positive; it is always
positive, so the `rate_limit` `1 / interval` handed to `DBMAsyncJob` is
well-defined and positive. -/
theorem collection_interval_rate_limit (cfg : Option ℚ) :
    0 < effectiveCollectionInterval cfg ∧
    effectiveCollectionInterval cfg =
      (match cfg with
       | some v => if 0 < v then v else DEFAULT_COLLECTION_INTERVAL
       | none => DEFAULT_COLLECTION_INTERVAL) ∧
    rateLimitOf cfg = 1 / effectiveCollectionInterval cfg ∧
    0 < rateLimitOf cfg := by
  have hdef : (0:ℚ) < DEFAULT_COLLECTION_INTERVAL := by norm_num [DEFAULT_COLLECTION_INTERVAL]
  have hpos : 0 < effectiveCollectionInterval cfg := by
    cases cfg with
    | none => simp [effectiveCollectionInterval, DEFAULT_COLLECTION_INTERVAL]
    | some v =>
      by_cases h : v ≤ 0
      · simpa [effectiveCollectionInterval, Option.getD, h] using hdef
      · simpa [effectiveCollectionInterval, Option.getD, h] using not_le.mp h
  refine ⟨hpos, ?_, rfl, one_div_pos.mpr hpos⟩
  cases cfg with
  | none => simp [effectiveCollectionInterval, Option.getD, hdef.not_le]
  | some v =>
    by_cases h : v ≤ 0
    · simp [effectiveCollectionInterval, Option.getD, h, not_lt.mpr h]
    · simp [effectiveCollectionInterval, Option.getD, h, not_le.mp h]

/-- **C8.** When every fetched row's `completion_instance_id` is a present
integer, the body of `_get_new_agent_job_history` runs the watermark
update without raising and returns exactly the fetched rows, unchanged and
in fetch order; with the precondition dropped, a `None`
`completion_instance_id` compared against a set watermark raises
`TypeError`. -/
theorem processFetchedRows_total (last : Option Int) (rows : List HistoryRow)
    (h : ∀ r ∈ rows, r.completion_instance_id.isSome) :
    (∃ w', processFetchedRows last rows = .ok (rows, w')) ∧
    processFetchedRows (some 1) [nullCidRow] =
      .error "TypeError: > not supported between NoneType and int" := by
  refine ⟨?_, rfl⟩
  obtain ⟨w', hw'⟩ := updateWatermarkE_all_some
    (rows.map HistoryRow.completion_instance_id) last
    (by intro c hc
        obtain ⟨r, hr, hrc⟩ := List.mem_map.mp hc
        exact hrc ▸ h r hr)
  exact ⟨w', by simp [processFetchedRows, hw']⟩

/-- Witness for `processFetchedRows_total` at a concrete watermark and row
list satisfying the precondition. -/
theorem processFetchedRows_total_witness :
    ∃ w', processFetchedRows (some 1) [sampleHistoryRow, sampleHistoryRow2] =
      .ok ([sampleHistoryRow, sampleHistoryRow2], w') :=
  (processFetchedRows_total (some 1) [sampleHistoryRow, sampleHistoryRow2]
    (by decide)).1

/-! ## Lemmas about the grouping dict -/

theorem lookupKey_map_update (c : Option Int) (r : HistoryRow) (k : Option Int) :
    ∀ (acc : List (Option Int × List HistoryRow)),
      lookupKey k (acc.map fun p =>
          if p.1 = c then (p.1, p.2 ++ [r]) else p) =
        if k = c then (lookupKey k acc).map (· ++ [r]) else lookupKey k acc := by
  intro acc
  induction acc with
  | nil => by_cases h : k = c <;> simp [lookupKey, h]
  | cons p ps ih =>
    by_cases hpc : p.1 = c <;> by_cases hpk : p.1 = k
    · have hkc : k = c := hpk ▸ hpc
      simp [lookupKey, hpc, hpk, hkc]
    · have hkc : ¬k = c := fun h => hpk (hpc.trans h.symm)
      have hck : ¬c = k := fun h => hkc h.symm
      simp [lookupKey, hpc, hpk, hkc, hck, ih]
    · have hkc : ¬k = c := fun h => hpc (hpk.trans h)
      have hck : ¬c = k := fun h => hkc h.symm
      simp [lookupKey, hpc, hpk, hkc, hck]
    · simp [lookupKey, hpc, hpk, ih]

theorem lookupKey_append_single (c : Option Int) (g : List HistoryRow)
    (k : Option Int) :
    ∀ (acc : List (Option Int × List HistoryRow)),
      lookupKey k (acc ++ [(c, g)]) =
        match lookupKey k acc with
        | some v => some v
        | none => if c = k then some g else none := by
  intro acc
  induction acc with
  | nil => simp [lookupKey]
  | cons p ps ih =>
    by_cases h : p.1 = k <;> simp [lookupKey, h, ih]

theorem lookupKey_eq_none_iff (k : Option Int) :
    ∀ (acc : List (Option Int × List HistoryRow)),
      lookupKey k acc = none ↔ k ∉ acc.map Prod.fst := by
  intro acc
  induction acc with
  | nil => simp [lookupKey]
  | cons p ps ih =>
    by_cases h : p.1 = k
    · simp [lookupKey, h]
    · simp only [lookupKey, if_neg h, List.map_cons, List.mem_cons, ih]
      constructor
      · intro hnm hor
        rcases hor with h1 | h2
        · exact h h1.symm
        · exact hnm h2
      · intro hnm h2
        exact hnm (Or.inr h2)

theorem lookupKey_addRow (acc : List (Option Int × List HistoryRow))
    (r : HistoryRow) (k : Option Int) :
    lookupKey k (addRow acc r) =
      if k = r.completion_instance_id then
        match lookupKey k acc with
        | some g => some (g ++ [r])
        | none => some [r]
      else lookupKey k acc := by
  unfold addRow
  by_cases hc : (lookupKey r.completion_instance_id acc).isSome
  · rw [if_pos hc, lookupKey_map_update]
    by_cases hk : k = r.completion_instance_id
    · obtain ⟨g, hg⟩ := Option.isSome_iff_exists.mp hc
      rw [if_pos hk, if_pos hk, hk, hg]
      rfl
    · rw [if_neg hk, if_neg hk]
  · rw [if_neg hc, lookupKey_append_single]
    by_cases hk : k = r.completion_instance_id
    · rw [if_pos hk, hk]
      rw [Option.not_isSome_iff_eq_none.mp hc]
      simp
    · rw [if_neg hk]
      cases h : lookupKey k acc with
      | some v => rfl
      | none => exact if_neg fun he => hk he.symm

theorem keys_addRow (acc : List (Option Int × List HistoryRow)) (r : HistoryRow) :
    (addRow acc r).map Prod.fst =
      if (lookupKey r.completion_instance_id acc).isSome then acc.map Prod.fst
      else acc.map Prod.fst ++ [r.completion_instance_id] := by
  unfold addRow
  by_cases hc : (lookupKey r.completion_instance_id acc).isSome
  · rw [if_pos hc, if_pos hc, List.map_map]
    refine List.map_congr_left fun p _ => ?_
    by_cases h : p.1 = r.completion_instance_id <;> simp [Function.comp, h]
  · rw [if_neg hc, if_neg hc]
    simp

theorem keys_addRow_nodup (acc : List (Option Int × List HistoryRow))
    (r : HistoryRow) (h : (acc.map Prod.fst).Nodup) :
    ((addRow acc r).map Prod.fst).Nodup := by
  rw [keys_addRow]
  by_cases hc : (lookupKey r.completion_instance_id acc).isSome
  · rwa [if_pos hc]
  · rw [if_neg hc]
    rw [List.nodup_append]
    refine ⟨h, List.nodup_singleton _, fun a ha hb => ?_⟩
    rw [List.mem_singleton] at hb
    subst hb
    exact (lookupKey_eq_none_iff _ acc).mp (Option.not_isSome_iff_eq_none.mp hc) ha

theorem keys_groupAux_nodup (rows : List HistoryRow) :
    ∀ (acc : List (Option Int × List HistoryRow)),
      (acc.map Prod.fst).Nodup → ((groupAux rows acc).map Prod.fst).Nodup := by
  induction rows with
  | nil => exact fun acc h => h
  | cons r rs ih => exact fun acc h => ih (addRow acc r) (keys_addRow_nodup acc r h)

theorem lookupKey_groupAux (rows : List HistoryRow) :
    ∀ (acc : List (Option Int × List HistoryRow)) (k : Option Int),
      lookupKey k (groupAux rows acc) =
        match lookupKey k acc with
        | some g => some (g ++ rows.filter fun r => decide (r.completion_instance_id = k))
        | none =>
          if (rows.filter fun r => decide (r.completion_instance_id = k)) = [] then none
          else some (rows.filter fun r => decide (r.completion_instance_id = k)) := by
  induction rows with
  | nil =>
    intro acc k
    cases h : lookupKey k acc <;> simp [groupAux, h]
  | cons r rs ih =>
    intro acc k
    have hstep : lookupKey k (groupAux (r :: rs) acc) =
        lookupKey k (groupAux rs (addRow acc r)) := rfl
    rw [hstep, ih (addRow acc r) k, lookupKey_addRow]
    by_cases hk : r.completion_instance_id = k
    · rw [if_pos hk.symm]
      rw [List.filter_cons_of_pos (by simpa using hk)]
      cases h : lookupKey k acc with
      | some g => simp
      | none => simp
    · rw [if_neg (fun h => hk h.symm)]
      rw [List.filter_cons_of_neg (by simpa using hk)]

theorem lookupKey_groupByCid (rows : List HistoryRow) (k : Option Int) :
    lookupKey k (groupByCid rows) =
      if (rows.filter fun r => decide (r.completion_instance_id = k)) = [] then none
      else some (rows.filter fun r => decide (r.completion_instance_id = k)) := by
  have h := lookupKey_groupAux rows [] k
  simpa [lookupKey] using h

theorem lookupKey_self_of_mem :
    ∀ (acc : List (Option Int × List HistoryRow)),
      (acc.map Prod.fst).Nodup → ∀ p ∈ acc, lookupKey p.1 acc = some p.2 := by
  intro acc
  induction acc with
  | nil => intro _ p hp; cases hp
  | cons q qs ih =>
    intro hnd p hp
    rw [List.map_cons] at hnd
    have hq := (List.nodup_cons.mp hnd).1
    rcases List.mem_cons.mp hp with h | h
    · subst h
      simp [lookupKey]
    · have hne : q.1 ≠ p.1 := fun he =>
        hq (he ▸ List.mem_map.mpr ⟨p, h, rfl⟩)
      simp only [lookupKey, if_neg hne]
      exact ih (List.nodup_cons.mp hnd).2 p h

/-- **C4.** `collect_agent_activity` partitions the fetched rows by
`completion_instance_id`: the grouping dict has pairwise-distinct keys, a
key is present iff some fetched row carries it, the value at a key is
exactly the sublist of fetched rows with that `completion_instance_id` in
fetch order, and every row of a group carries the group's key — so two
rows share a group iff their completion ids are equal and every fetched
row lands in exactly one group. -/
theorem groupByCid_partition (rows : List HistoryRow) :
    ((groupByCid rows).map Prod.fst).Nodup ∧
    (∀ k, lookupKey k (groupByCid rows) =
      if (rows.filter fun r => decide (r.completion_instance_id = k)) = [] then none
      else some (rows.filter fun r => decide (r.completion_instance_id = k))) ∧
    (∀ k, k ∈ (groupByCid rows).map Prod.fst ↔
      ∃ r ∈ rows, r.completion_instance_id = k) ∧
    (∀ g ∈ groupByCid rows,
      g.2 = rows.filter fun r => decide (r.completion_instance_id = g.1)) := by
  have hnd : ((groupByCid rows).map Prod.fst).Nodup :=
    keys_groupAux_nodup rows [] (by simp)
  refine ⟨hnd, lookupKey_groupByCid rows, fun k => ?_, fun g hg => ?_⟩
  · rw [← not_iff_not, ← lookupKey_eq_none_iff, lookupKey_groupByCid]
    by_cases hemp : (rows.filter fun r => decide (r.completion_instance_id = k)) = []
    · rw [if_pos hemp]
      refine iff_of_true rfl ?_
      rintro ⟨r, hr, hrk⟩
      have := List.filter_eq_nil_iff.mp hemp r hr
      exact this (decide_eq_true hrk)
    · rw [if_neg hemp]
      obtain ⟨r, hrmem⟩ := List.exists_mem_of_ne_nil _ hemp
      have hr := List.mem_filter.mp hrmem
      refine iff_of_false (by simp) ?_
      intro hno
      exact hno ⟨r, hr.1, of_decide_eq_true hr.2⟩
  · have hl := lookupKey_self_of_mem (groupByCid rows) hnd g hg
    rw [lookupKey_groupByCid] at hl
    by_cases hemp : (rows.filter fun r => decide (r.completion_instance_id = g.1)) = []
    · rw [if_pos hemp] at hl
      cases hl
    · rw [if_neg hemp] at hl
      exact (Option.some_injective _ hl).symm

/-- Witness for `groupByCid_partition` at a concrete fetched-row list:
the group of key `some 7` is the two rows carrying that id, in order, and
each row of each group carries its group's key. -/
theorem groupByCid_partition_witness :
    lookupKey (some 7) (groupByCid [sampleHistoryRow, nullCidRow, sampleHistoryRow2]) =
      some [sampleHistoryRow, sampleHistoryRow2] ∧
    ((none : Option Int), [nullCidRow]).2 =
      List.filter (fun r => decide (r.completion_instance_id = ((none : Option Int), [nullCidRow]).1))
        [sampleHistoryRow, nullCidRow, sampleHistoryRow2] := by
  have h := groupByCid_partition [sampleHistoryRow, nullCidRow, sampleHistoryRow2]
  refine ⟨?_, h.2.2.2 (none, [nullCidRow]) (by decide)⟩
  rw [h.2.1 (some 7)]
  decide

/-! ## Lemmas about the history query -/

theorem runQuery_sound (tbl : List SysJobHistoryRow) (filt : Option Int)
    (hr : HistoryRow) (h : hr ∈ runAgentHistoryQuery tbl filt) :
    ∃ r ∈ tbl, ∃ m : Int,
      computeCompletionId tbl r = some m ∧
      hr.job_id = r.job_id ∧ hr.step_instance_id = r.instance_id ∧
      hr.completion_instance_id = some m ∧
      (∀ t, filt = some t → t < m) := by
  unfold runAgentHistoryQuery at h
  obtain ⟨r, hrt, hf⟩ := List.mem_filterMap.mp h
  cases hm : computeCompletionId tbl r with
  | none => rw [hm] at hf; cases hf
  | some m =>
    rw [hm] at hf
    dsimp only at hf
    by_cases hcond : passesFilter filt m = true
    · rw [if_pos hcond] at hf
      have hrEq := (Option.some_injective _ hf).symm
      refine ⟨r, hrt, m, hm, ?_, ?_, ?_, ?_⟩
      · rw [hrEq]
      · rw [hrEq]
      · rw [hrEq]
      · intro t ht
        subst ht
        exact of_decide_eq_true hcond
    · rw [if_neg hcond] at hf
      cases hf

/-- **C3.** Every row returned by `AGENT_HISTORY_QUERY` has a step-0 row
of the same job at or after its `instance_id`, and its
`completion_instance_id` is exactly the minimum `instance_id` among the
step-0 rows of the same `job_id` with `instance_id` at least the row's
own: it belongs to that candidate set and is a lower bound of it. -/
theorem agentHistoryQuery_completion_min (tbl : List SysJobHistoryRow)
    (filt : Option Int) (hr : HistoryRow)
    (h : hr ∈ runAgentHistoryQuery tbl filt) :
    (∃ s ∈ tbl, s.job_id = hr.job_id ∧ s.step_id = 0 ∧
      hr.step_instance_id ≤ s.instance_id) ∧
    hr.completion_instance_id =
      (step0Instances tbl hr.job_id hr.step_instance_id).min? ∧
    (∀ m, hr.completion_instance_id = some m →
      m ∈ step0Instances tbl hr.job_id hr.step_instance_id ∧
      ∀ c ∈ step0Instances tbl hr.job_id hr.step_instance_id, m ≤ c) := by
  obtain ⟨r, hrt, m, hm, hjob, hinst, hcid, _⟩ := runQuery_sound tbl filt hr h
  have hm' : (step0Instances tbl hr.job_id hr.step_instance_id).min? = some m := by
    rw [hjob, hinst]
    exact hm
  have hmem : m ∈ step0Instances tbl hr.job_id hr.step_instance_id :=
    List.min?_mem (fun a b => min_choice a b) hm'
  have hlb : ∀ c ∈ step0Instances tbl hr.job_id hr.step_instance_id, m ≤ c :=
    (List.le_min?_iff (fun _ _ _ => le_min_iff) hm').mp (le_refl m)
  refine ⟨?_, by rw [hcid, hm'], fun m' hm'' => ?_⟩
  · obtain ⟨s, hsf, hs⟩ := List.mem_map.mp hmem
    have hsp := List.mem_filter.mp hsf
    have hprops := of_decide_eq_true hsp.2
    exact ⟨s, hsp.1, hprops.1, hprops.2.1, hprops.2.2⟩
  · have : m' = m := by
      rw [hcid] at hm''
      exact Option.some_injective _ hm''.symm
    exact this ▸ ⟨hmem, hlb⟩

/-- Witness for `agentHistoryQuery_completion_min` on a concrete table:
the returned step-1 row's completion id is the minimum of its step-0
candidate set. -/
theorem agentHistoryQuery_completion_min_witness :
    exampleQueryRow.completion_instance_id =
      (step0Instances exampleTable exampleQueryRow.job_id
        exampleQueryRow.step_instance_id).min? :=
  (agentHistoryQuery_completion_min exampleTable none exampleQueryRow
    (by decide)).2.1

/-- **C2 (amended).** For every run after the watermark has been set to a
nonzero value `w`, the built query carries the
`HAVING MIN(sjh2.instance_id) > w` filter, and every row it returns has
`completion_instance_id` strictly greater than `w` — so no row whose
completion id was already processed (hence at most `w`) is fetched or
emitted again. -/
theorem watermark_filter_strict (tbl : List SysJobHistoryRow) (w : Int)
    (hw : w ≠ 0) :
    lastInstanceIdFilterOf (some w) = some w ∧
    ∀ hr ∈ runAgentHistoryQuery tbl (lastInstanceIdFilterOf (some w)),
      ∀ m, hr.completion_instance_id = some m → w < m := by
  have hfil : lastInstanceIdFilterOf (some w) = some w := by
    simp [lastInstanceIdFilterOf, hw]
  refine ⟨hfil, fun hr hmem m hm => ?_⟩
  rw [hfil] at hmem
  obtain ⟨r, _, m', _, _, _, hcid, hflt⟩ := runQuery_sound tbl (some w) hr hmem
  have hmm : m' = m := by
    rw [hm] at hcid
    exact Option.some_injective _ hcid.symm
  exact hmm ▸ hflt w rfl

/-- Witness for `watermark_filter_strict`: with watermark `6`, the filter
is kept and the concrete row fetched from `exampleTable2` has completion
id `10 > 6`. -/
theorem watermark_filter_strict_witness :
    lastInstanceIdFilterOf (some 6) = some 6 ∧ (6 : Int) < 10 := by
  have h := watermark_filter_strict exampleTable2 6 (by decide)
  exact ⟨h.1, h.2 exampleQueryRow2 (by decide) 10 (by decide)⟩

/-- **C2 counterexample.** The claim as stated fails when the watermark is
the integer `0`: the watermark is set, yet Python integer truthiness
(`if self._last_history_id:`) omits the filter, and a row whose
`completion_instance_id` is `0` — not strictly greater than the
watermark — is fetched again. -/
theorem watermark_filter_zero_cex :
    lastInstanceIdFilterOf (some 0) = none ∧
    ∃ hr ∈ runAgentHistoryQuery [zeroInstanceRow] (lastInstanceIdFilterOf (some 0)),
      hr.completion_instance_id = some 0 := by decide

/-! ## Lemmas about `collect_agent_activity` -/

theorem collect_ok_shape (st : CollectorState) (now : ℚ)
    (tbl : List SysJobHistoryRow) (payloads : List Json) (st' : CollectorState)
    (h : collectAgentActivity st now tbl = .ok (payloads, st')) :
    ∃ w', st' = { st with last_history_id := w' } ∧
      payloads =
        (groupByCid (runAgentHistoryQuery tbl (lastInstanceIdFilterOf st.last_history_id))).map
          fun g => eventToJson (mkAgentJobsHistoryEvent st' now g.2) := by
  unfold collectAgentActivity getNewAgentJobHistory at h
  dsimp only at h
  cases hw : updateWatermarkE st.last_history_id
      ((runAgentHistoryQuery tbl (lastInstanceIdFilterOf st.last_history_id)).map
        HistoryRow.completion_instance_id) with
  | error e =>
    rw [hw] at h
    simp at h
  | ok w' =>
    rw [hw] at h
    dsimp only at h
    rw [Except.ok.injEq, Prod.mk.injEq] at h
    exact ⟨w', h.2.symm, by rw [← h.1, ← h.2]⟩

/-- **C5.** When `collect_agent_activity` succeeds, it hands exactly one
JSON payload to `database_monitoring_query_activity` per group of fetched
history rows — the serialized event of that group, in group order — and
every such serialized event carries the host, the agent version, the
collector's tags, the millisecond timestamp, and the group's rows under
the `sqlserver_job_history` field. -/
theorem one_event_per_group (st : CollectorState) (now : ℚ)
    (tbl : List SysJobHistoryRow) (payloads : List Json) (st' : CollectorState)
    (h : collectAgentActivity st now tbl = .ok (payloads, st')) :
    payloads =
      (groupByCid (runAgentHistoryQuery tbl (lastInstanceIdFilterOf st.last_history_id))).map
        (fun g => eventToJson (mkAgentJobsHistoryEvent st' now g.2)) ∧
    payloads.length =
      (groupByCid (runAgentHistoryQuery tbl (lastInstanceIdFilterOf st.last_history_id))).length ∧
    (∀ group : List HistoryRow,
      (eventToJson (mkAgentJobsHistoryEvent st' now group)).field "host" =
        some (.str st.resolved_hostname) ∧
      (eventToJson (mkAgentJobsHistoryEvent st' now group)).field "ddagentversion" =
        some (.str st.ddagentversion) ∧
      (eventToJson (mkAgentJobsHistoryEvent st' now group)).field "ddtags" =
        some (.arr (st.tags.map Json.str)) ∧
      (eventToJson (mkAgentJobsHistoryEvent st' now group)).field "timestamp" =
        some (.num (now * 1000)) ∧
      (eventToJson (mkAgentJobsHistoryEvent st' now group)).field "sqlserver_job_history" =
        some (.arr (group.map historyRowToJson))) := by
  obtain ⟨w', hst', hpay⟩ := collect_ok_shape st now tbl payloads st' h
  subst hst'
  exact ⟨hpay, by rw [hpay, List.length_map], fun group => ⟨rfl, rfl, rfl, rfl, rfl⟩⟩

/-- Witness for `one_event_per_group` on a concrete successful run: the
serialized event's `host` field is the collector's resolved hostname. -/
theorem one_event_per_group_witness :
    (eventToJson (mkAgentJobsHistoryEvent exampleState 0 [sampleHistoryRow])).field "host" =
      some (Json.str "db-host") := by
  have h := one_event_per_group exampleState 0 [] [] exampleState rfl
  exact (h.2.2 [sampleHistoryRow]).1

/-- **C9.** Internal tags never leak into emitted events: the collector's
tags are fixed at construction to the check's tags with every tag starting
with `dd.internal` removed; the `ddtags` field of every event built by
`_create_agent_jobs_history_event` is exactly that list, and
`collect_agent_activity` never changes it. -/
theorem internal_tags_never_leak (checkTags : List String) (cfgInterval : Option ℚ)
    (hostname agentVersion ver edition cloudMeta : String) (now : ℚ)
    (group : List HistoryRow) (tbl : List SysJobHistoryRow)
    (st : CollectorState)
    (hst : st = initCollector checkTags cfgInterval hostname agentVersion ver edition cloudMeta) :
    st.tags = checkTags.filter (fun t => !(pyStartsWith t "dd.internal")) ∧
    (mkAgentJobsHistoryEvent st now group).ddtags = st.tags ∧
    (∀ t ∈ (mkAgentJobsHistoryEvent st now group).ddtags,
      t ∈ checkTags ∧ pyStartsWith t "dd.internal" = false) ∧
    (∀ t ∈ checkTags, pyStartsWith t "dd.internal" = false →
      t ∈ (mkAgentJobsHistoryEvent st now group).ddtags) ∧
    (∀ payloads st', collectAgentActivity st now tbl = .ok (payloads, st') →
      st'.tags = st.tags) := by
  subst hst
  refine ⟨rfl, rfl, ?_, ?_, ?_⟩
  · intro t ht
    have ht' := List.mem_filter.mp ht
    refine ⟨ht'.1, ?_⟩
    have := ht'.2
    simpa using this
  · intro t ht hns
    exact List.mem_filter.mpr ⟨ht, by simp [hns]⟩
  · intro payloads st' h
    obtain ⟨w', hst', _⟩ := collect_ok_shape _ _ _ _ _ h
    rw [hst']

/-- Witness for `internal_tags_never_leak` on a concrete check tag list:
the internal tag is dropped, the plain tag is kept in the event, and a
concrete run leaves the tags unchanged. -/
theorem internal_tags_never_leak_witness :
    (initCollector ["env:test", "dd.internal.resource:x"] none
        "db-host" "7.55.0" "16.0.1000" "3" "aws").tags = ["env:test"] ∧
    "env:test" ∈ (mkAgentJobsHistoryEvent
      (initCollector ["env:test", "dd.internal.resource:x"] none
        "db-host" "7.55.0" "16.0.1000" "3" "aws") 0 []).ddtags := by
  have h := internal_tags_never_leak ["env:test", "dd.internal.resource:x"] none
    "db-host" "7.55.0" "16.0.1000" "3" "aws" 0 [] [] _ rfl
  exact ⟨h.1.trans (by decide), h.2.2.2.1 "env:test" (by decide) (by decide)⟩

/-! ## Lemmas about the KubeVirt transformer and endpoint validation -/

theorem flatMap_const_nil {α β : Type} (l : List α) :
    (l.flatMap fun _ => ([] : List β)) = [] := by
  induction l with
  | nil => rfl
  | cons a t ih => simp [List.flatMap_cons, ih]

theorem flatMap_pure {α β : Type} (l : List α) (f : α → β) :
    (l.flatMap fun x => [f x]) = l.map f := by
  induction l with
  | nil => rfl
  | cons a t ih => simp [List.flatMap_cons, ih]

/-- **C7.** The custom KubeVirt transformer drops every sample of a metric
whose name is not a key of `METRICS_MAP`; a mapped metric's samples are
emitted under the mapped (resolved) name with the base tags appended to
each sample's tags — counters through `count` with a `".count"` suffix,
gauges through `gauge` under the mapped name itself. -/
theorem transformer_map_and_drop (metricsMap : List (String × MapEntry))
    (baseTags : List String) (m : ScrapedMetric) (sampleData : List SampleEntry) :
    (metricsMap.lookup m.name = none →
      transformKubevirtMetrics metricsMap baseTags m sampleData = []) ∧
    (∀ entry, metricsMap.lookup m.name = some entry →
      (m.type = .counter →
        transformKubevirtMetrics metricsMap baseTags m sampleData =
          sampleData.map fun sd =>
            .count (entry.resolvedName ++ ".count") sd.value
              (sd.tags ++ baseTags) sd.hostname) ∧
      (m.type = .gauge →
        transformKubevirtMetrics metricsMap baseTags m sampleData =
          sampleData.map fun sd =>
            .gauge entry.resolvedName sd.value (sd.tags ++ baseTags) sd.hostname)) := by
  constructor
  · intro h
    unfold transformKubevirtMetrics
    rw [h]
    exact flatMap_const_nil sampleData
  · intro entry hentry
    constructor
    · intro htype
      unfold transformKubevirtMetrics
      rw [hentry, htype]
      exact flatMap_pure sampleData _
    · intro htype
      unfold transformKubevirtMetrics
      rw [hentry, htype]
      exact flatMap_pure sampleData _

/-- Witness for `transformer_map_and_drop`: a mapped counter metric's two
samples become two `count` emissions with the `".count"` suffix and the
base tags appended; an unmapped metric is dropped. -/
theorem transformer_map_and_drop_witness :
    transformKubevirtMetrics exampleMetricsMap ["kube_cluster_name:c1"]
      { name := "kubevirt_api_request_deprecated_total", type := .counter }
      exampleSamples =
      [.count "api_request_deprecated.count" 3 ["verb:GET", "kube_cluster_name:c1"] "node-a",
       .count "api_request_deprecated.count" 4 ["verb:PUT", "kube_cluster_name:c1"] "node-b"] ∧
    transformKubevirtMetrics exampleMetricsMap ["kube_cluster_name:c1"]
      { name := "unlisted_metric", type := .counter } exampleSamples = [] := by
  have h := transformer_map_and_drop exampleMetricsMap ["kube_cluster_name:c1"]
    { name := "kubevirt_api_request_deprecated_total", type := .counter }
    exampleSamples
  have h2 := transformer_map_and_drop exampleMetricsMap ["kube_cluster_name:c1"]
    { name := "unlisted_metric", type := .counter } exampleSamples
  refine ⟨?_, h2.1 (by decide)⟩
  have hc := (h.2 (.plain "api_request_deprecated") (by decide)).1 rfl
  rw [hc]
  decide

/-- **C10 (amended).** `_validate_metrics_endpoint` returns the parsed
`(ip, port)` pair exactly when the parsed URL has a truthy (present,
nonempty) hostname, a truthy (present, nonzero) port, and a hostname that
parses as a literal IP address; in every other case — hostname missing or
empty, port missing **or zero**, or hostname not an IP literal — it raises
`ValueError`. -/
theorem validateMetricsEndpoint_ok_iff {α : Type} (ipParse : String → Option α)
    (host : Option String) (port : Option Nat) :
    ((∃ res, validateMetricsEndpoint ipParse host port = .ok res) ↔
      (hostTruthy host = true ∧ portTruthy port = true ∧
        (ipParse (host.getD "")).isSome = true)) ∧
    (∀ ip p, validateMetricsEndpoint ipParse host port = .ok (ip, p) →
      ipParse (host.getD "") = some ip ∧ port = some p) := by
  constructor
  · constructor
    · rintro ⟨res, hres⟩
      unfold validateMetricsEndpoint at hres
      by_cases htr : hostTruthy host && portTruthy port
      · rw [if_pos htr] at hres
        cases hip : ipParse (host.getD "") with
        | none => rw [hip] at hres; cases hres
        | some ip =>
          have hand := Bool.and_eq_true_iff.mp htr
          exact ⟨hand.1, hand.2, rfl⟩
      · rw [if_neg htr] at hres
        cases hres
    · rintro ⟨hh, hp, hip⟩
      obtain ⟨ip, hip'⟩ := Option.isSome_iff_exists.mp hip
      refine ⟨(ip, port.getD 0), ?_⟩
      unfold validateMetricsEndpoint
      rw [if_pos (by rw [hh, hp]; rfl), hip']
  · intro ip p hres
    unfold validateMetricsEndpoint at hres
    by_cases htr : hostTruthy host && portTruthy port
    · rw [if_pos htr] at hres
      cases hip : ipParse (host.getD "") with
      | none => rw [hip] at hres; cases hres
      | some ip' =>
        rw [hip] at hres
        rw [Except.ok.injEq, Prod.mk.injEq] at hres
        refine ⟨by rw [hres.1], ?_⟩
        have hp : portTruthy port = true := (Bool.and_eq_true_iff.mp htr).2
        cases port with
        | none => cases hp
        | some p0 =>
          rw [← hres.2]
          rfl
    · rw [if_neg htr] at hres
      cases hres

/-- Witness for `validateMetricsEndpoint_ok_iff` at a concrete literal-IP
URL with a nonzero port. -/
theorem validateMetricsEndpoint_ok_iff_witness :
    ∃ res, validateMetricsEndpoint parseIPv4 (some "10.96.0.1") (some 443) = .ok res := by
  have h := validateMetricsEndpoint_ok_iff parseIPv4 (some "10.96.0.1") (some 443)
  exact h.1.mpr ⟨by decide, by decide, by decide⟩

/-- **C10 counterexample.** The claim as stated fails at the URL
`https://1.2.3.4:0/metrics`: its hostname `1.2.3.4` is a literal IP
address and its port `0` is present, yet Python integer truthiness in
`if host and port:` sends the call into the `ValueError` branch instead of
returning the pair. -/
theorem validateMetricsEndpoint_port_zero_cex :
    (parseIPv4 "1.2.3.4").isSome = true ∧
    (some 0 : Option Nat).isSome = true ∧
    validateMetricsEndpoint parseIPv4 (some "1.2.3.4") (some 0) =
      .error "ValueError: URL does not match the expected format" := by
  refine ⟨by decide, by decide, ?_⟩
  rfl

end IntegrationsCore
